import Mathlib

/-!
Verification of the step-navigation logic of `useMultiStepForm`
(src/src/hooks/useMultiStepForm.ts), a React hook coordinating a
multi-step form.

Embedding choices:
* A step (`FormStep`) keeps its `component` (opaque, type parameter `σ`)
  and its `fields : List String` (the field paths passed to validation).
* The hook state is the `currentStepIndex` (a JS number holding an
  integer, so `Int`: the exported `setCurrentStepIndex` accepts any
  integer with no clamping) together with the react-hook-form engine
  state, kept opaque as a type parameter `ε`.
* `trigger` (react-hook-form partial validation) is an oracle
  `ε → List String → ε × Bool`: it may mutate the engine's error set and
  returns whether the scoped fields validated.
* JS array indexing `steps[i]` returns `undefined` out of bounds; reading
  `.fields` / `.component` off it throws.  Fallible reads are `Option`,
  with `none` standing for the thrown TypeError.
-/

namespace MultiStepForm

/-- One entry of the `steps` array: a renderable component plus the field
paths validated before leaving this step. -/
structure FormStep (σ : Type) where
  component : σ
  fields : List String
deriving Repr, DecidableEq

/-- The mutable state owned by one hook instance: the `useState` index and
the react-hook-form engine state (opaque). -/
structure HookState (ε : Type) where
  currentStepIndex : Int
  engine : ε
deriving Repr, DecidableEq

/-- Initial hook state: `useState<number>(0)` with the engine freshly
constructed by `useForm`. -/
def initialState (e : ε) : HookState ε :=
  ⟨0, e⟩

/-- JS array read `steps[idx]`: `some` when `0 <= idx < steps.length`,
otherwise `none` (`undefined`). -/
def stepAt (steps : List (FormStep σ)) (idx : Int) : Option (FormStep σ) :=
  if h : 0 ≤ idx ∧ idx.toNat < steps.length then
    some (steps.get ⟨idx.toNat, h.2⟩)
  else
    none

/-- The functional updater passed to `setCurrentStepIndex` inside
`goToNextStep`: `prevStep >= steps.length - 1 ? prevStep : prevStep + 1`. -/
def advanceIndex (n : Nat) (idx : Int) : Int :=
  if idx ≥ (n : Int) - 1 then idx else idx + 1

/-- The functional updater passed to `setCurrentStepIndex` inside
`goToPreviousStep`: `prevStep <= 0 ? prevStep : prevStep - 1`. -/
def retreatIndex (idx : Int) : Int :=
  if idx ≤ 0 then idx else idx - 1

/-- `goToNextStep`: reads `steps[currentStepIndex].fields` (throws =
`none` when the index is out of range), calls `trigger` on those fields
(mutating the engine), returns early if invalid, otherwise applies
`advanceIndex`.  The second component of the result records the argument
of each `trigger` invocation performed by the call. -/
def goToNextStep (steps : List (FormStep σ)) (trigger : ε → List String → ε × Bool)
    (s : HookState ε) : Option (HookState ε × List (List String)) :=
  match stepAt steps s.currentStepIndex with
  | none => none
  | some st =>
    let r := trigger s.engine st.fields
    if r.2 then
      some (⟨advanceIndex steps.length s.currentStepIndex, r.1⟩, [st.fields])
    else
      some (⟨s.currentStepIndex, r.1⟩, [st.fields])

/-- `goToPreviousStep`: applies `retreatIndex` to the index; touches
nothing else and cannot fail. -/
def goToPreviousStep (s : HookState ε) : HookState ε :=
  ⟨retreatIndex s.currentStepIndex, s.engine⟩

/-- The exported `setCurrentStepIndex` setter: overwrites the index with
the caller-supplied integer, no clamping, no validation. -/
def setCurrentStepIndex (i : Int) (s : HookState ε) : HookState ε :=
  ⟨i, s.engine⟩

/-- `CurrentStep = steps[currentStepIndex].component`, evaluated on every
render of the hook; `none` models the TypeError on an out-of-range read. -/
def CurrentStep (steps : List (FormStep σ)) (s : HookState ε) : Option σ :=
  (stepAt steps s.currentStepIndex).map FormStep.component

/-- `isFirstStep = currentStepIndex <= 0`. -/
def isFirstStep (s : HookState ε) : Bool :=
  decide (s.currentStepIndex ≤ 0)

/-- `isLastStep = currentStepIndex >= steps.length - 1`. -/
def isLastStep (steps : List (FormStep σ)) (s : HookState ε) : Bool :=
  decide (s.currentStepIndex ≥ (steps.length : Int) - 1)

/-- One call through the returned capability object. -/
inductive NavOp where
  | goNext
  | goPrev
  | jumpTo (i : Int)
deriving Repr, DecidableEq

/-- Effect of one capability call on the hook state, with the list of
`trigger` invocations (their field-list arguments) it performed. -/
def navStep (steps : List (FormStep σ)) (trigger : ε → List String → ε × Bool)
    (s : HookState ε) : NavOp → Option (HookState ε × List (List String))
  | NavOp.goNext => goToNextStep steps trigger s
  | NavOp.goPrev => some (goToPreviousStep s, [])
  | NavOp.jumpTo i => some (setCurrentStepIndex i s, [])

/-- Runs a sequence of capability calls, accumulating the log of
`trigger` invocations; `none` as soon as one call throws. -/
def navRun (steps : List (FormStep σ)) (trigger : ε → List String → ε × Bool)
    (s : HookState ε) : List NavOp → Option (HookState ε × List (List String))
  | [] => some (s, [])
  | op :: ops =>
    match navStep steps trigger s op with
    | none => none
    | some (s2, log) =>
      match navRun steps trigger s2 ops with
      | none => none
      | some (s3, log2) => some (s3, log ++ log2)

/-- Number of `goNext` calls in a sequence. -/
def countAdvance (ops : List NavOp) : Nat :=
  ops.countP (fun op => decide (op = NavOp.goNext))

/-- Concrete one-step configuration for witnesses. -/
def steps1 : List (FormStep Unit) :=
  [⟨(), ["name"]⟩]

/-- Concrete two-step configuration (the README scenario). -/
def steps2 : List (FormStep Unit) :=
  [⟨(), ["name"]⟩, ⟨(), ["age"]⟩]

/-- Concrete three-step configuration. -/
def steps3 : List (FormStep Unit) :=
  [⟨(), ["a"]⟩, ⟨(), ["b"]⟩, ⟨(), ["c"]⟩]

/-- A validator oracle that always passes and leaves the engine as is. -/
def trigTrue : Unit → List String → Unit × Bool :=
  fun e _ => (e, true)

/-- A validator oracle that always fails. -/
def trigFalse : Unit → List String → Unit × Bool :=
  fun e _ => (e, false)

lemma advanceIndex_eq_min (n : Nat) (idx : Int) (h1 : idx < (n : Int)) :
    advanceIndex n idx = min (idx + 1) ((n : Int) - 1) := by
  rw [advanceIndex]
  rcases le_total (idx + 1) ((n : Int) - 1) with h | h
  · rw [min_eq_left h, if_neg (by omega)]
  · rw [min_eq_right h]
    split <;> omega

lemma stepAt_of_lt (steps : List (FormStep σ)) (idx : Int) (h0 : 0 ≤ idx)
    (h1 : idx < (steps.length : Int)) :
    ∃ st, stepAt steps idx = some st := by
  unfold stepAt
  rw [dif_pos ⟨h0, by omega⟩]
  exact ⟨_, rfl⟩

lemma stepAt_bounds {steps : List (FormStep σ)} {idx : Int} {st : FormStep σ}
    (h : stepAt steps idx = some st) :
    0 ≤ idx ∧ idx < (steps.length : Int) := by
  unfold stepAt at h
  split at h
  · omega
  · exact absurd h (by simp)

/-- C1: when `goToNextStep` runs and the step-scoped validation succeeds,
the new index is `min (currentStepIndex + 1) (N - 1)`; the starting index
is arbitrary (any index at which the call returns, in particular `N-1`). -/
theorem C1_advance_min_formula (steps : List (FormStep σ))
    (trigger : ε → List String → ε × Bool) (s : HookState ε) (st : FormStep σ)
    (hst : stepAt steps s.currentStepIndex = some st)
    (hv : (trigger s.engine st.fields).2 = true) :
    (goToNextStep steps trigger s).map (fun r => r.1.currentStepIndex)
      = some (min (s.currentStepIndex + 1) ((steps.length : Int) - 1)) := by
  obtain ⟨hb0, hb1⟩ := stepAt_bounds hst
  simp only [goToNextStep, hst, hv, if_true, Option.map_some']
  rw [advanceIndex_eq_min _ _ hb1]

/-- Closed instance of C1: two steps, always-valid trigger, start at 0. -/
theorem C1_advance_min_formula_witness :
    (goToNextStep steps2 trigTrue (⟨0, ()⟩ : HookState Unit)).map
        (fun r => r.1.currentStepIndex)
      = some (min ((0 : Int) + 1) ((steps2.length : Int) - 1)) :=
  C1_advance_min_formula steps2 trigTrue ⟨0, ()⟩ ⟨(), ["name"]⟩ (by decide) rfl

/-- C2: when validation fails the call returns normally (`some`, nothing
thrown) with `currentStepIndex` unchanged; failure is visible only in the
engine state that `trigger` produced. -/
theorem C2_silent_gate (steps : List (FormStep σ))
    (trigger : ε → List String → ε × Bool) (s : HookState ε) (st : FormStep σ)
    (hst : stepAt steps s.currentStepIndex = some st)
    (hv : (trigger s.engine st.fields).2 = false) :
    goToNextStep steps trigger s
      = some (⟨s.currentStepIndex, (trigger s.engine st.fields).1⟩, [st.fields]) := by
  simp only [goToNextStep, hst, hv]
  simp

/-- Closed instance of C2: one step, always-failing trigger, start at 0. -/
theorem C2_silent_gate_witness :
    goToNextStep steps1 trigFalse (⟨0, ()⟩ : HookState Unit)
      = some (⟨0, ()⟩, [["name"]]) :=
  C2_silent_gate steps1 trigFalse ⟨0, ()⟩ ⟨(), ["name"]⟩ (by decide) rfl

lemma advanceIndex_mem (n : Nat) (idx : Int) (h0 : 0 ≤ idx) (h1 : idx < (n : Int)) :
    0 ≤ advanceIndex n idx ∧ advanceIndex n idx < (n : Int) := by
  rw [advanceIndex]
  split <;> omega

lemma retreatIndex_mem (m : Int) (idx : Int) (h0 : 0 ≤ idx) (h1 : idx < m) :
    0 ≤ retreatIndex idx ∧ retreatIndex idx < m := by
  rw [retreatIndex]
  split <;> omega

/-- C3 (amended): the invariant `0 <= currentStepIndex < len(steps)` holds
in the initial state for non-empty `steps` and is preserved by
`goToNextStep` and `goToPreviousStep`; it is preserved by the
`setCurrentStepIndex` override only for in-range arguments (the override
itself performs no clamping, see the counterexample). -/
theorem C3_index_invariant (steps : List (FormStep σ)) (hne : steps ≠ [])
    (trigger : ε → List String → ε × Bool) (s : HookState ε)
    (hs0 : 0 ≤ s.currentStepIndex)
    (hs1 : s.currentStepIndex < (steps.length : Int)) :
    (∀ e : ε, 0 ≤ (initialState e).currentStepIndex ∧
      (initialState e).currentStepIndex < (steps.length : Int)) ∧
    (∀ r, goToNextStep steps trigger s = some r →
      0 ≤ r.1.currentStepIndex ∧ r.1.currentStepIndex < (steps.length : Int)) ∧
    (0 ≤ (goToPreviousStep s).currentStepIndex ∧
      (goToPreviousStep s).currentStepIndex < (steps.length : Int)) ∧
    (∀ i : Int, 0 ≤ i → i < (steps.length : Int) →
      0 ≤ (setCurrentStepIndex i s).currentStepIndex ∧
      (setCurrentStepIndex i s).currentStepIndex < (steps.length : Int)) := by
  have hlen : 0 < steps.length := List.length_pos.mpr hne
  refine ⟨?_, ?_, ?_, ?_⟩
  · intro e
    constructor
    · exact le_refl 0
    · show (0 : Int) < (steps.length : Int)
      exact_mod_cast hlen
  · intro r hr
    obtain ⟨st, hst⟩ := stepAt_of_lt steps s.currentStepIndex hs0 hs1
    simp only [goToNextStep, hst] at hr
    split at hr <;> rw [Option.some_inj] at hr <;> subst hr
    · exact advanceIndex_mem steps.length s.currentStepIndex hs0 hs1
    · exact ⟨hs0, hs1⟩
  · exact retreatIndex_mem (steps.length : Int) s.currentStepIndex hs0 hs1
  · intro i hi0 hi1
    exact ⟨hi0, hi1⟩

/-- Counterexample to C3 as stated: `setCurrentStepIndex 5` on a one-step
configuration leaves the index at 5, outside `[0, len(steps))`. -/
theorem C3_jump_escapes_invariant :
    (setCurrentStepIndex 5 (initialState () : HookState Unit)).currentStepIndex = 5 ∧
    ¬ ((setCurrentStepIndex 5 (initialState () : HookState Unit)).currentStepIndex
        < (steps1.length : Int)) := by
  decide

/-- Closed instance of the amended C3: the retreat conjunct at the initial
state of the one-step configuration. -/
theorem C3_index_invariant_witness :
    0 ≤ (goToPreviousStep (initialState () : HookState Unit)).currentStepIndex ∧
    (goToPreviousStep (initialState () : HookState Unit)).currentStepIndex
      < (steps1.length : Int) :=
  (C3_index_invariant steps1 (by decide) trigTrue (initialState ())
    (by decide) (by decide)).2.2.1

lemma goToNextStep_log {steps : List (FormStep σ)}
    {trigger : ε → List String → ε × Bool} {s : HookState ε}
    {r : HookState ε × List (List String)}
    (hr : goToNextStep steps trigger s = some r) :
    ∃ st, stepAt steps s.currentStepIndex = some st ∧ r.2 = [st.fields] := by
  cases hst : stepAt steps s.currentStepIndex with
  | none =>
    simp only [goToNextStep, hst] at hr
    exact absurd hr (by simp)
  | some st =>
    simp only [goToNextStep, hst] at hr
    refine ⟨st, rfl, ?_⟩
    split at hr <;> rw [Option.some_inj] at hr <;> rw [← hr]

lemma countAdvance_cons (op : NavOp) (ops : List NavOp) :
    countAdvance (op :: ops) = countAdvance ops + (if op = NavOp.goNext then 1 else 0) := by
  simp [countAdvance, List.countP_cons]

lemma navStep_log_length {steps : List (FormStep σ)}
    {trigger : ε → List String → ε × Bool} {s : HookState ε} {op : NavOp}
    {r : HookState ε × List (List String)}
    (hr : navStep steps trigger s op = some r) :
    r.2.length = (if op = NavOp.goNext then 1 else 0) := by
  cases op with
  | goNext =>
    obtain ⟨st, _, hlog⟩ := goToNextStep_log hr
    rw [if_pos rfl, hlog]
    rfl
  | goPrev =>
    rw [navStep, Option.some_inj] at hr
    rw [← hr]
    rfl
  | jumpTo i =>
    rw [navStep, Option.some_inj] at hr
    rw [← hr]
    rfl

lemma navRun_log_length (steps : List (FormStep σ))
    (trigger : ε → List String → ε × Bool) :
    ∀ (ops : List NavOp) (s : HookState ε) (r : HookState ε × List (List String)),
      navRun steps trigger s ops = some r → r.2.length = countAdvance ops := by
  intro ops
  induction ops with
  | nil =>
    intro s r hr
    rw [navRun, Option.some_inj] at hr
    rw [← hr]
    rfl
  | cons op ops ih =>
    intro s r hr
    simp only [navRun] at hr
    split at hr
    · exact absurd hr (by simp)
    next s2 log hstep =>
      split at hr
      · exact absurd hr (by simp)
      next s3 log2 hrun =>
        rw [Option.some_inj] at hr
        rw [← hr]
        have h1 : log.length = (if op = NavOp.goNext then 1 else 0) :=
          navStep_log_length hstep
        have h2 : log2.length = countAdvance ops := ih s2 (s3, log2) hrun
        simp only [List.length_append, countAdvance_cons, h1, h2]
        omega

/-- C4: every `goToNextStep` call that runs invokes `trigger` exactly once,
on exactly `steps[currentStepIndex].fields` for the index held at call
time, whatever the outcome; consequently over any call sequence the number
of `trigger` invocations equals the number of advance calls. -/
theorem C4_trigger_exactly_once (steps : List (FormStep σ))
    (trigger : ε → List String → ε × Bool) :
    (∀ (s : HookState ε) (st : FormStep σ),
      stepAt steps s.currentStepIndex = some st →
      (goToNextStep steps trigger s).map (fun r => r.2) = some [st.fields]) ∧
    (∀ (ops : List NavOp) (s : HookState ε) (r : HookState ε × List (List String)),
      navRun steps trigger s ops = some r → r.2.length = countAdvance ops) := by
  constructor
  · intro s st hst
    simp only [goToNextStep, hst]
    split <;> rfl
  · exact navRun_log_length steps trigger

/-- Closed instance of C4: one advance plus one retreat on the two-step
configuration perform exactly one validator invocation, on the first
step's fields. -/
theorem C4_trigger_exactly_once_witness :
    (goToNextStep steps2 trigTrue (⟨0, ()⟩ : HookState Unit)).map (fun r => r.2)
      = some [["name"]] ∧
    ([["name"]] : List (List String)).length
      = countAdvance [NavOp.goNext, NavOp.goPrev] := by
  constructor
  · exact (C4_trigger_exactly_once steps2 trigTrue).1 ⟨0, ()⟩ ⟨(), ["name"]⟩ (by decide)
  · exact (C4_trigger_exactly_once steps2 trigTrue).2 [NavOp.goNext, NavOp.goPrev]
      ⟨0, ()⟩ (⟨0, ()⟩, [["name"]]) (by decide)

/-- C5 (amended): `goToPreviousStep` never validates and never fails — it
is a total function that leaves the engine untouched and performs no
`trigger` invocation — and from every non-negative starting index it sets
the index to `max (currentStepIndex - 1) 0`; from a negative index
(reachable only through the unclamped override) it leaves the index
unchanged instead of clamping up to 0. -/
theorem C5_retreat_max_formula (steps : List (FormStep σ))
    (trigger : ε → List String → ε × Bool) (s : HookState ε) :
    (0 ≤ s.currentStepIndex →
      (goToPreviousStep s).currentStepIndex = max (s.currentStepIndex - 1) 0) ∧
    (s.currentStepIndex < 0 →
      (goToPreviousStep s).currentStepIndex = s.currentStepIndex) ∧
    (goToPreviousStep s).engine = s.engine ∧
    navStep steps trigger s NavOp.goPrev = some (goToPreviousStep s, []) := by
  refine ⟨?_, ?_, rfl, rfl⟩
  · intro h
    show retreatIndex s.currentStepIndex = _
    rw [retreatIndex]
    rcases lt_or_le 0 s.currentStepIndex with h1 | h1
    · rw [if_neg (by omega), max_eq_left (by omega)]
    · rw [if_pos (by omega), max_eq_right (by omega)]
      omega
  · intro h
    show retreatIndex s.currentStepIndex = _
    rw [retreatIndex, if_pos (by omega)]

/-- Counterexample to C5 as stated: from index `-1` (reachable via the
override) `goToPreviousStep` keeps `-1`, while `max (-1 - 1) 0 = 0`. -/
theorem C5_no_clamp_from_negative :
    (goToPreviousStep
        (setCurrentStepIndex (-1) (initialState ()) : HookState Unit)).currentStepIndex
      = -1 ∧
    max ((-1 : Int) - 1) 0 = 0 := by
  decide

/-- Closed instance of the amended C5: retreat from index 2 lands on
`max (2 - 1) 0 = 1`. -/
theorem C5_retreat_max_formula_witness :
    (goToPreviousStep (⟨2, ()⟩ : HookState Unit)).currentStepIndex
      = max ((2 : Int) - 1) 0 :=
  (C5_retreat_max_formula steps1 trigTrue ⟨2, ()⟩).1 (by decide)

/-- C6: from an interior index (strictly between 0 and N-1), a
`goToNextStep` whose validation succeeds followed by `goToPreviousStep`
returns the index to its original value. -/
theorem C6_round_trip (steps : List (FormStep σ))
    (trigger : ε → List String → ε × Bool) (s : HookState ε) (st : FormStep σ)
    (h0 : 0 < s.currentStepIndex)
    (h1 : s.currentStepIndex < (steps.length : Int) - 1)
    (hst : stepAt steps s.currentStepIndex = some st)
    (hv : (trigger s.engine st.fields).2 = true) :
    (goToNextStep steps trigger s).map
        (fun r => (goToPreviousStep r.1).currentStepIndex)
      = some s.currentStepIndex := by
  simp only [goToNextStep, hst, hv, if_true, Option.map_some']
  rw [Option.some_inj]
  show retreatIndex (advanceIndex steps.length s.currentStepIndex) = _
  rw [advanceIndex, if_neg (by omega), retreatIndex, if_neg (by omega)]
  omega

/-- Closed instance of C6: interior index 1 of the three-step
configuration with succeeding validation. -/
theorem C6_round_trip_witness :
    (goToNextStep steps3 trigTrue (⟨1, ()⟩ : HookState Unit)).map
        (fun r => (goToPreviousStep r.1).currentStepIndex)
      = some 1 :=
  C6_round_trip steps3 trigTrue ⟨1, ()⟩ ⟨(), ["b"]⟩ (by decide) (by decide)
    (by decide) rfl

lemma navRun_replicate_goPrev (steps : List (FormStep σ))
    (trigger : ε → List String → ε × Bool) :
    ∀ (k : Nat) (e : ε),
      navRun steps trigger ⟨0, e⟩ (List.replicate k NavOp.goPrev)
        = some (⟨0, e⟩, []) := by
  intro k
  induction k with
  | zero =>
    intro e
    rw [List.replicate_zero, navRun]
  | succ k ih =>
    intro e
    have hprev : goToPreviousStep (⟨0, e⟩ : HookState ε) = ⟨0, e⟩ := rfl
    rw [List.replicate_succ]
    simp only [navRun, navStep, hprev, ih e, List.nil_append]

lemma navRun_replicate_goNext (steps : List (FormStep σ))
    (trigger : ε → List String → ε × Bool)
    (hv : ∀ (e : ε) (f : List String), (trigger e f).2 = true) :
    ∀ (k : Nat) (idx : Int) (e : ε), 0 ≤ idx → idx < (steps.length : Int) →
      (navRun steps trigger ⟨idx, e⟩ (List.replicate k NavOp.goNext)).map
          (fun r => r.1.currentStepIndex)
        = some (min (idx + (k : Int)) ((steps.length : Int) - 1)) := by
  intro k
  induction k with
  | zero =>
    intro idx e h0 h1
    simp only [List.replicate_zero, navRun, Option.map_some', Nat.cast_zero,
      add_zero, Option.some_inj]
    rw [min_eq_left (by omega)]
  | succ k ih =>
    intro idx e h0 h1
    obtain ⟨st, hst⟩ := stepAt_of_lt steps idx h0 h1
    have hadv := advanceIndex_mem steps.length idx h0 h1
    have hih := ih (advanceIndex steps.length idx) (trigger e st.fields).1
      hadv.1 hadv.2
    rw [List.replicate_succ]
    simp only [navRun, navStep, goToNextStep, hst, hv, if_true]
    cases hrun : navRun steps trigger
        ⟨advanceIndex steps.length idx, (trigger e st.fields).1⟩
        (List.replicate k NavOp.goNext) with
    | none =>
      rw [hrun] at hih
      exact absurd hih (by simp)
    | some q =>
      obtain ⟨s3, log2⟩ := q
      rw [hrun, Option.map_some', Option.some_inj] at hih
      simp only [hrun, Option.map_some', Option.some_inj]
      rw [hih, advanceIndex]
      push_cast
      rcases le_or_lt ((steps.length : Int) - 1) idx with hc | hc
      · rw [if_pos (by omega), min_eq_right (by omega), min_eq_right (by omega)]
      · rw [if_neg (by omega)]
        congr 1
        omega

/-- C7: for every non-empty configuration, any sequence of retreats from
index 0 keeps the index at 0, and k successful advances from index 0 put
the index at `min k (N-1)` — so it stabilizes at `N-1` and every further
successful advance is a no-op, not an error. -/
theorem C7_boundary_clamping (steps : List (FormStep σ))
    (trigger : ε → List String → ε × Bool) (hN : 1 ≤ steps.length)
    (hv : ∀ (e : ε) (f : List String), (trigger e f).2 = true)
    (k : Nat) (e : ε) :
    navRun steps trigger ⟨0, e⟩ (List.replicate k NavOp.goPrev)
      = some (⟨0, e⟩, []) ∧
    (navRun steps trigger ⟨0, e⟩ (List.replicate k NavOp.goNext)).map
        (fun r => r.1.currentStepIndex)
      = some (min (k : Int) ((steps.length : Int) - 1)) := by
  constructor
  · exact navRun_replicate_goPrev steps trigger k e
  · have h := navRun_replicate_goNext steps trigger hv k 0 e (le_refl 0)
      (by exact_mod_cast hN)
    simpa using h

/-- Closed instance of C7: three retreats and three successful advances
from index 0 of the two-step configuration (`min 3 1 = 1`). -/
theorem C7_boundary_clamping_witness :
    navRun steps2 trigTrue ⟨0, ()⟩ (List.replicate 3 NavOp.goPrev)
      = some (⟨0, ()⟩, []) ∧
    (navRun steps2 trigTrue ⟨0, ()⟩ (List.replicate 3 NavOp.goNext)).map
        (fun r => r.1.currentStepIndex)
      = some (min ((3 : Nat) : Int) ((steps2.length : Int) - 1)) :=
  C7_boundary_clamping steps2 trigTrue (by decide) (fun e f => rfl) 3 ()

/-- C8 (amended): the flags recompute from the state on every read as the
code's inequalities `isFirstStep = (currentStepIndex <= 0)` and
`isLastStep = (currentStepIndex >= N-1)`; on every in-range index these
coincide with the equality tests `== 0` and `== N-1`, but on indices the
unclamped override puts out of range they differ (see counterexample). -/
theorem C8_boundary_flags (steps : List (FormStep σ)) (s : HookState ε)
    (h0 : 0 ≤ s.currentStepIndex)
    (h1 : s.currentStepIndex < (steps.length : Int)) :
    isFirstStep s = decide (s.currentStepIndex = 0) ∧
    isLastStep steps s = decide (s.currentStepIndex = (steps.length : Int) - 1) := by
  constructor
  · rw [isFirstStep, decide_eq_decide]
    omega
  · rw [isLastStep, decide_eq_decide]
    omega

/-- Counterexample to C8 as stated: after the override sets the index to
`-1`, `isFirstStep` reads `true` although the index differs from 0; with
three steps and the override at 5, `isLastStep` reads `true` although 5
differs from `N-1 = 2`. -/
theorem C8_flags_differ_out_of_range :
    isFirstStep (setCurrentStepIndex (-1) (initialState ()) : HookState Unit) = true ∧
    (setCurrentStepIndex (-1) (initialState ()) : HookState Unit).currentStepIndex ≠ 0 ∧
    isLastStep steps3 (setCurrentStepIndex 5 (initialState ()) : HookState Unit) = true ∧
    (setCurrentStepIndex 5 (initialState ()) : HookState Unit).currentStepIndex
      ≠ (steps3.length : Int) - 1 := by
  decide

/-- Closed instance of the amended C8 at in-range index 1 of the two-step
configuration. -/
theorem C8_boundary_flags_witness :
    isFirstStep (⟨1, ()⟩ : HookState Unit) = decide ((1 : Int) = 0) ∧
    isLastStep steps2 (⟨1, ()⟩ : HookState Unit)
      = decide ((1 : Int) = (steps2.length : Int) - 1) :=
  C8_boundary_flags steps2 ⟨1, ()⟩ (by decide) (by decide)

/-- C9: `goToPreviousStep` and `setCurrentStepIndex` change only the
index — the engine state is untouched and no `trigger` invocation happens
(empty invocation log) — and in particular jumping from index 1 to 2 in a
three-step configuration sets the index to 2 with zero validator
invocations. -/
theorem C9_retreat_jump_frame (steps : List (FormStep σ))
    (trigger : ε → List String → ε × Bool) (s : HookState ε) (i : Int) :
    navStep steps trigger s NavOp.goPrev
      = some (⟨retreatIndex s.currentStepIndex, s.engine⟩, []) ∧
    navStep steps trigger s (NavOp.jumpTo i) = some (⟨i, s.engine⟩, []) ∧
    navRun steps3 trigTrue ⟨1, ()⟩ [NavOp.jumpTo 2] = some (⟨2, ()⟩, []) :=
  ⟨rfl, rfl, rfl⟩

lemma stepAt_isSome (steps : List (FormStep σ)) (idx : Int) :
    (stepAt steps idx).isSome = true
      ↔ (0 ≤ idx ∧ idx < (steps.length : Int)) := by
  rw [stepAt]
  split
  next h =>
    simp only [Option.isSome_some, true_iff]
    omega
  next h =>
    simp only [Option.isSome_none, Bool.false_eq_true, false_iff]
    omega

lemma goToNextStep_isSome (steps : List (FormStep σ))
    (trigger : ε → List String → ε × Bool) (s : HookState ε) :
    (goToNextStep steps trigger s).isSome
      = (stepAt steps s.currentStepIndex).isSome := by
  cases hst : stepAt steps s.currentStepIndex with
  | none =>
    simp only [goToNextStep, hst]
    rfl
  | some st =>
    simp only [goToNextStep, hst]
    split <;> rfl

/-- C10: the reads `steps[currentStepIndex].component` (every render) and
`steps[currentStepIndex].fields` (inside `goToNextStep`) are unguarded:
they succeed exactly when `0 <= currentStepIndex < len(steps)`, and on an
empty `steps` list (or any out-of-range index) they are out-of-bounds
accesses (`none` in this total embedding), not raised descriptive
errors. -/
theorem C10_unguarded_reads (steps : List (FormStep σ))
    (trigger : ε → List String → ε × Bool) (s : HookState ε) :
    ((CurrentStep steps s).isSome = true
      ↔ (0 ≤ s.currentStepIndex ∧ s.currentStepIndex < (steps.length : Int))) ∧
    ((goToNextStep steps trigger s).isSome = true
      ↔ (0 ≤ s.currentStepIndex ∧ s.currentStepIndex < (steps.length : Int))) ∧
    (∀ s2 : HookState ε, CurrentStep ([] : List (FormStep σ)) s2 = none ∧
      goToNextStep ([] : List (FormStep σ)) trigger s2 = none) := by
  refine ⟨?_, ?_, ?_⟩
  · rw [CurrentStep, Option.isSome_map']
    exact stepAt_isSome steps s.currentStepIndex
  · rw [goToNextStep_isSome]
    exact stepAt_isSome steps s.currentStepIndex
  · intro s2
    have hnone : stepAt ([] : List (FormStep σ)) s2.currentStepIndex = none := by
      rw [stepAt, dif_neg]
      intro h
      exact absurd h.2 (by simp)
    constructor
    · rw [CurrentStep, hnone]
      rfl
    · simp only [goToNextStep, hnone]

/-- Closed instance of C10: in the one-step configuration the render read
succeeds at index 0; on the empty configuration it is `none`. -/
theorem C10_unguarded_reads_witness :
    (CurrentStep steps1 (⟨0, ()⟩ : HookState Unit)).isSome = true ∧
    CurrentStep ([] : List (FormStep Unit)) (⟨0, ()⟩ : HookState Unit) = none := by
  constructor
  · exact (C10_unguarded_reads steps1 trigTrue ⟨0, ()⟩).1.mpr (by decide)
  · exact ((C10_unguarded_reads ([] : List (FormStep Unit)) trigTrue
      ⟨0, ()⟩).2.2 ⟨0, ()⟩).1

end MultiStepForm
